import Mathlib

/-!
Verification of the ComfyUI client `comfyapi.py`.

The module is a small HTTP client: it loads a workflow JSON file, injects a
prompt string into node `"6"`, POSTs the workflow to a ComfyUI server, polls
the history endpoint until the job completes, selects the last image of the
numerically-largest output node, and downloads it.

We embed the pure logic of each function shallowly:
* JSON values are the inductive `JVal`; Python dicts become association
  lists (`List (String × JVal)`), which preserves insertion order the way
  CPython dicts do.
* Python exceptions become an explicit error type `PyErr` threaded through
  `Except`.
* Wall-clock time in the polling loop is modelled discretely: each HTTP GET
  is instantaneous and each `time.sleep(poll)` advances the clock by `poll`,
  so the elapsed time at iteration `n` is `n * poll`.
* The HTTP and filesystem effects of the downloader are reified as data so
  that their ordering can be stated.
-/

namespace Comfy

/-- JSON values, as produced by `json.loads`.  Numbers are modelled as
integers; the claims under verification never involve fractional numbers. -/
inductive JVal where
  | null : JVal
  | bool (b : Bool) : JVal
  | num (n : Int) : JVal
  | str (s : String) : JVal
  | arr (elems : List JVal) : JVal
  | obj (fields : List (String × JVal)) : JVal

/-- Python truthiness (`bool(x)`) on JSON values: `None`, `False`, `0`,
`""`, `[]` and `{}` are falsy, everything else truthy. -/
def JVal.truthy : JVal → Bool
  | .null => false
  | .bool b => b
  | .num n => n != 0
  | .str s => s != ""
  | .arr es => !es.isEmpty
  | .obj fs => !fs.isEmpty

/-- Python exceptions that the client can raise. -/
inductive PyErr where
  | valueError (msg : String) : PyErr
  | keyError (key : String) : PyErr
  | typeError (msg : String) : PyErr
  | attributeError (msg : String) : PyErr
  | jsonDecodeError : PyErr
  | httpError : PyErr
  deriving Repr, DecidableEq

/-- Lookup in a Python dict modelled as an association list (`d[k]` /
`k in d`): the first binding of the key, if any. -/
def alookup (fields : List (String × JVal)) (k : String) : Option JVal :=
  (fields.find? (fun p => p.1 = k)).map (fun p => p.2)

/-- Python dict item assignment `d[k] = v`: replaces the first binding of
`k`, or appends a new binding at the end (CPython insertion order). -/
def aset (fields : List (String × JVal)) (k : String) (v : JVal) :
    List (String × JVal) :=
  match fields with
  | [] => [(k, v)]
  | (k', v') :: rest =>
      if k' = k then (k, v) :: rest else (k', v') :: aset rest k v

/-- Python `d.get(k, default)` on a JSON value: a default lookup when the
receiver is a dict, an `AttributeError` otherwise. -/
def dictGetD (v : JVal) (k : String) (dflt : JVal) : Except PyErr JVal :=
  match v with
  | .obj fields => .ok ((alookup fields k).getD dflt)
  | _ => .error (.attributeError "object has no attribute get")

/-- Python `d[k]` on a JSON value: `KeyError` when the key is absent,
`TypeError` when the receiver is not a dict. -/
def getItem (v : JVal) (k : String) : Except PyErr JVal :=
  match v with
  | .obj fields =>
      match alookup fields k with
      | some w => .ok w
      | none => .error (.keyError k)
  | _ => .error (.typeError "object is not subscriptable")

/-! ### Job submitter: `_post_prompt` (comfyapi.py lines 27-39)

Only the payload construction is pure; the POST itself and the
`prompt_id` extraction are network effects outside the claims.  The
source decides the envelope with
`if "prompt" in workflow and len(workflow) == 1: payload = workflow
 else: payload = {"prompt": workflow}`. -/

/-- The JSON body `_post_prompt` sends for a given workflow dict. -/
def post_prompt_payload (workflow : List (String × JVal)) :
    List (String × JVal) :=
  if workflow.any (fun p => p.1 = "prompt") && workflow.length == 1 then
    workflow
  else
    [("prompt", .obj workflow)]

/-! ### Completion poller: `_wait_until_done` (comfyapi.py lines 42-63)

`hists n` is the JSON body of the `n`-th GET on `/history/<prompt_id>`.
Time is discrete: requests are instantaneous and each `time.sleep(poll)`
advances the clock by `poll`, so `time.time() - t0` at iteration `n` is
`n * poll`.  The loop body is split into the per-response check
(`poll_check`) and the timed loop (`wait_go`). -/

/-- Outcome of one loop body on one history response: the job's record is
ready, or the loop must keep waiting. -/
inductive StepRes where
  | ready (data : JVal) : StepRes
  | notReady : StepRes

/-- One iteration's inspection of the `/history` response `hist`:
`if not hist or prompt_id not in hist: <wait>`, then
`data = hist[prompt_id]`,
`if not data.get("status", {}).get("completed", False): <wait> else:
return data`.  Membership (`in`) is modelled for dict responses, which is
what the history endpoint returns; a truthy non-dict response raises. -/
def poll_check (hist : JVal) (prompt_id : String) : Except PyErr StepRes :=
  if hist.truthy = false then .ok .notReady
  else
    match hist with
    | .obj fields =>
        match alookup fields prompt_id with
        | none => .ok .notReady
        | some data => do
            let status ← dictGetD data "status" (.obj [])
            let completed ← dictGetD status "completed" (.bool false)
            if completed.truthy = false then pure .notReady
            else pure (.ready data)
    | _ => .error (.typeError "argument of type is not iterable")

/-- Result of the polling loop.  `outOfFuel` is a modelling artefact: the
loop is given an explicit iteration budget, and we prove the budget used
by `wait_until_done` is never exhausted when `poll ≥ 1`. -/
inductive WaitRes where
  | completed (data : JVal) : WaitRes
  | timedOut : WaitRes
  | pyError (e : PyErr) : WaitRes
  | outOfFuel : WaitRes

/-- The polling loop from iteration `n` on, with `fuel` iterations left.
A not-ready response first checks `time.time() - t0 > timeout` (here
`n * poll > timeout`) and raises `TimeoutError` (`timedOut`), otherwise
sleeps and retries. -/
def wait_go (prompt_id : String) (hists : Nat → JVal) (poll timeout : Nat) :
    Nat → Nat → WaitRes
  | 0, _ => .outOfFuel
  | fuel + 1, n =>
      match poll_check (hists n) prompt_id with
      | .error e => .pyError e
      | .ok (.ready data) => .completed data
      | .ok .notReady =>
          if timeout < n * poll then .timedOut
          else wait_go prompt_id hists poll timeout fuel (n + 1)

/-- `_wait_until_done`: run the polling loop from iteration 0.  A budget
of `timeout + 2` iterations is enough for any `poll ≥ 1`, since the loop
stops no later than the first `n` with `n * poll > timeout`. -/
def wait_until_done (prompt_id : String) (hists : Nat → JVal)
    (poll timeout : Nat) : WaitRes :=
  wait_go prompt_id hists poll timeout (timeout + 2) 0

/-! ### Result selector: `_pick_last_image` (comfyapi.py lines 66-80) -/

/-- Accumulate the value of a non-empty all-digit character list;
`none` when a non-digit occurs. -/
def nat_of_digits_aux : List Char → Nat → Option Nat
  | [], acc => some acc
  | c :: rest, acc =>
      if c.isDigit then nat_of_digits_aux rest (acc * 10 + (c.toNat - '0'.toNat))
      else none

/-- The value of a non-empty decimal digit string. -/
def nat_of_digits : List Char → Option Nat
  | [] => none
  | c :: rest => nat_of_digits_aux (c :: rest) 0

/-- Python `int(s)` on the decimal-integer strings the claims range over
(an optional minus sign followed by digits); any other such string
raises `ValueError`.  Python additionally strips whitespace and accepts
`+` and `_`; those inputs are outside the claims' key alphabet. -/
def py_int (s : String) : Except PyErr Int :=
  match s.data with
  | '-' :: rest =>
      match nat_of_digits rest with
      | some n => .ok (-(n : Int))
      | none => .error (.valueError ("invalid literal for int: " ++ s))
  | cs =>
      match nat_of_digits cs with
      | some n => .ok ((n : Int))
      | none => .error (.valueError ("invalid literal for int: " ++ s))

/-- `sorted(keys, key=int)`: compute the sort key of every element (the
first unparsable key raises), then sort stably by it.  Mathlib's
`insertionSort` with `≤` on the key is stable, like CPython's sort. -/
def sorted_by_int (keys : List String) : Except PyErr (List String) := do
  let pairs ← keys.mapM (fun k => do
    let n ← py_int k
    pure (k, n))
  pure ((pairs.insertionSort (fun a b => a.2 ≤ b.2)).map (fun p => p.1))

/-- `last_node = sorted(outputs.keys(), key=int)[-1]`: the key of the
output node the selector picks.  `[-1]` on an empty list raises
`IndexError`; that case is unreachable because `outputs` is checked to be
truthy first. -/
def last_node_key (outputs : List (String × JVal)) : Except PyErr String := do
  let sortedKeys ← sorted_by_int (outputs.map (fun p => p.1))
  match sortedKeys.getLast? with
  | some k => .ok k
  | none => .error (.typeError "list index out of range")

/-- `_pick_last_image`: from a completed job's record, pick the image.
The Python `ValueError` messages quote the record via `json.dumps`; here
they carry the fixed prefix only. -/
def pick_last_image (hist : List (String × JVal)) :
    Except PyErr (JVal × JVal) :=
  match alookup hist "outputs" with
  | none => .error (.valueError "No se encontraron outputs")
  | some outputsV =>
      if outputsV.truthy = false then
        .error (.valueError "No se encontraron imágenes en los outputs")
      else
        match outputsV with
        | .obj outputs => do
            let lastNode ← last_node_key outputs
            let nodeV ←
              match alookup outputs lastNode with
              | some v => Except.ok v
              | none => Except.error (.keyError lastNode)
            let imagesV ← getItem nodeV "images"
            if imagesV.truthy = false then
              Except.error (.valueError "El nodo final no contiene imágenes")
            else
              match imagesV with
              | .arr images =>
                  match images.getLast? with
                  | some lastImage => do
                      let filename ← getItem lastImage "filename"
                      let subfolder ← dictGetD lastImage "subfolder" (.str "")
                      pure (filename, subfolder)
                  | none => Except.error (.typeError "list index out of range")
              | _ => Except.error (.typeError "object is not subscriptable")
        | _ => .error (.attributeError "object has no attribute keys")

/-! ### Workflow loader & mutator, orchestration head: `generar`
(comfyapi.py lines 113-125)

`json.loads` is standard-library code; its outcome is abstracted as an
`Option JVal` argument (`none` = the file content is not valid JSON,
raising `json.JSONDecodeError`). -/

/-- The mutation step of `generar`:
`nodo_6 = workflow["6"]` (a `KeyError "6"` when the node is absent), then
`nodo_6["inputs"]["text"] = prompt_text` (a `KeyError "inputs"` when the
node has no `inputs` entry).  The in-place mutation of the aliased
`nodo_6` is rendered functionally: the result is the whole workflow with
the nested field updated. -/
def set_prompt_text (workflow : JVal) (prompt_text : String) :
    Except PyErr JVal :=
  match workflow with
  | .obj wf =>
      match alookup wf "6" with
      | none => .error (.keyError "6")
      | some nodo6 =>
          match nodo6 with
          | .obj n6 =>
              match alookup n6 "inputs" with
              | none => .error (.keyError "inputs")
              | some inputsV =>
                  match inputsV with
                  | .obj ins =>
                      .ok (.obj (aset wf "6"
                        (.obj (aset n6 "inputs"
                          (.obj (aset ins "text" (.str prompt_text)))))))
                  | _ => .error
                      (.typeError "object does not support item assignment")
          | _ => .error (.typeError "object is not subscriptable")
  | _ => .error (.typeError "list indices must be integers")

/-- `generar` up to (and excluding) the first network call: parse the
file content, inject the prompt into node `"6"`, and build the
`{"prompt": workflow}` wrapper that is handed to `_post_prompt`.  An
`Except.error` result means `generar` aborts before any network call,
since the POST body is never constructed. -/
def generar_pre (parsed : Option JVal) (prompt_text : String) :
    Except PyErr (List (String × JVal)) :=
  match parsed with
  | none => .error .jsonDecodeError
  | some workflow => do
      let wf ← set_prompt_text workflow prompt_text
      pure [("prompt", wf)]

/-! ### Result fetcher: `_download_image` (comfyapi.py lines 83-99) -/

/-- The final component of a path: the characters after the last `/`.
`pathlib` also normalises trailing slashes and `.` components; remote
image filenames have neither, and the model covers plain names. -/
def last_component (cs : List Char) : List Char :=
  (cs.reverse.takeWhile (fun c => c ≠ '/')).reverse

/-- The index of the last `.` in `name` (`name.rfind('.')`), meaningful
only when a dot occurs. -/
def last_dot_idx (name : List Char) : Nat :=
  name.length - 1 - name.reverse.indexOf '.'

/-- The suffix of a path's final component `name` (CPython): with `i`
the position of its last dot, the suffix is `name[i:]` when
`0 < i < len(name) - 1`, and empty otherwise. -/
def name_suffix (name : List Char) : List Char :=
  if name.contains '.' then
    if 0 < last_dot_idx name ∧ last_dot_idx name < name.length - 1 then
      name.drop (last_dot_idx name)
    else []
  else []

/-- `Path(filename).suffix` (CPython): the suffix of the final
component. -/
def path_suffix (filename : String) : String :=
  ⟨name_suffix (last_component filename.data)⟩

/-- `ext = Path(filename).suffix or ".png"`: Python `or` yields the left
operand unless it is falsy (the empty string). -/
def ext_of (filename : String) : String :=
  if path_suffix filename = "" then ".png" else path_suffix filename

/-- `f"{uuid.uuid4().hex}{ext}"`: the local file's name, given the hex
form of the freshly drawn UUID. -/
def local_filename (uuid_hex : String) (filename : String) : String :=
  uuid_hex ++ ext_of filename

/-- `save_dir / f"{uuid.uuid4().hex}{ext}"`: `pathlib`'s `/` join,
modelled as slash concatenation. -/
def download_local_path (save_dir uuid_hex filename : String) : String :=
  save_dir ++ "/" ++ local_filename uuid_hex filename

/-- Filesystem effects of `_download_image`, in program order. -/
inductive FsEffect where
  | mkdirParents (dir : String) : FsEffect
  | writeFile (path : String) : FsEffect
  deriving Repr, DecidableEq

/-- Outcome of the streaming GET on `/view` as observed by
`r.raise_for_status()`: success, or a non-success status / connection
failure (both raise). -/
inductive HttpOutcome where
  | success : HttpOutcome
  | failure : HttpOutcome
  deriving Repr, DecidableEq

/-- `_download_image` after the GET: `raise_for_status()` first, and only
then `save_dir.mkdir(parents=True, exist_ok=True)`, the filename
synthesis, and the chunked write.  Returns the effects performed and the
local path. -/
def download_image (outcome : HttpOutcome) (save_dir uuid_hex filename : String) :
    Except PyErr (List FsEffect × String) :=
  match outcome with
  | .failure => .error .httpError
  | .success =>
      let localPath := download_local_path save_dir uuid_hex filename
      .ok ([.mkdirParents save_dir, .writeFile localPath], localPath)

/-! ### Basic lemmas -/

theorem alookup_aset_self (l : List (String × JVal)) (k : String) (v : JVal) :
    alookup (aset l k v) k = some v := by
  induction l with
  | nil => simp [aset, alookup]
  | cons p rest ih =>
      obtain ⟨k', v'⟩ := p
      by_cases h : k' = k
      · subst h
        simp [aset, alookup]
      · simp only [aset, if_neg h]
        simpa [alookup, List.find?_cons, h] using ih

theorem length_eq_one_of_any_prompt (w : List (String × JVal))
    (ha : w.any (fun p => p.1 = "prompt") = true) (hl : w.length = 1) :
    ∃ v, w = [("prompt", v)] := by
  obtain ⟨a, rfl⟩ := List.length_eq_one.mp hl
  obtain ⟨k, v⟩ := a
  simp only [List.any_cons, List.any_nil, Bool.or_false, decide_eq_true_eq] at ha
  exact ⟨v, by simp [ha]⟩

/-! ### Claim C4 -/

/-- Claim C4: the JSON body built by `_post_prompt` always has exactly
one top-level key `"prompt"` and is never double-wrapped: an input that
is already a single-key mapping containing `"prompt"` is sent as-is, any
other input is wrapped once as `{"prompt": workflow}`; and for the
workflows the orchestration submits (they contain node `"6"`), the
explicit pre-wrapping in `generar` followed by `_post_prompt` yields the
same body as `_post_prompt` on the bare workflow. -/
theorem post_prompt_payload_spec (w : List (String × JVal)) :
    (post_prompt_payload w).map (fun p => p.1) = ["prompt"] ∧
    (w.any (fun p => p.1 = "prompt") = true ∧ w.length = 1 →
      post_prompt_payload w = w) ∧
    ((w.any (fun p => p.1 = "prompt") = true ∧ w.length = 1 → False) →
      post_prompt_payload w = [("prompt", JVal.obj w)]) ∧
    (w.any (fun p => p.1 = "6") = true →
      post_prompt_payload [("prompt", JVal.obj w)] = post_prompt_payload w) := by
  have hsplit : ∀ u : List (String × JVal),
      post_prompt_payload u = u ∧ (∃ v, u = [("prompt", v)]) ∨
      post_prompt_payload u = [("prompt", JVal.obj u)] ∧
        (u.any (fun p => p.1 = "prompt") = true ∧ u.length = 1 → False) := by
    intro u
    by_cases h : (u.any (fun p => p.1 = "prompt") && u.length == 1) = true
    · left
      have h' := Bool.and_eq_true_iff.mp h
      refine ⟨by simp [post_prompt_payload, h], ?_⟩
      exact length_eq_one_of_any_prompt u h'.1 (by simpa using h'.2)
    · right
      refine ⟨by simp [post_prompt_payload, h], ?_⟩
      intro ⟨ha, hl⟩
      exact h (by simp [ha, hl])
  refine ⟨?_, ?_, ?_, ?_⟩
  · rcases hsplit w with ⟨he, v, rfl⟩ | ⟨he, _⟩ <;> simp [he]
  · rintro ⟨ha, hl⟩
    obtain ⟨v, rfl⟩ := length_eq_one_of_any_prompt w ha hl
    simp [post_prompt_payload]
  · intro hn
    rcases hsplit w with ⟨he, v, rfl⟩ | ⟨he, _⟩
    · exact absurd ⟨by simp, by simp⟩ hn
    · exact he
  · intro h6
    have hwrapped : post_prompt_payload [("prompt", JVal.obj w)] =
        [("prompt", JVal.obj w)] := by
      simp [post_prompt_payload]
    rcases hsplit w with ⟨_, v, rfl⟩ | ⟨he, _⟩
    · simp at h6
    · rw [hwrapped, he]

/-- Witness for C4 at the distinguishing inputs: a bare workflow
`{"6": null}` is wrapped, and pre-wrapping it changes nothing. -/
theorem post_prompt_payload_spec_witness :
    post_prompt_payload [("6", JVal.null)] =
      [("prompt", JVal.obj [("6", JVal.null)])] ∧
    post_prompt_payload [("prompt", JVal.obj [("6", JVal.null)])] =
      post_prompt_payload [("6", JVal.null)] :=
  ⟨(post_prompt_payload_spec [("6", JVal.null)]).2.2.1 (by simp),
   (post_prompt_payload_spec [("6", JVal.null)]).2.2.2 (by simp)⟩

/-! ### Claim C7 -/

/-- Claim C7: the locally saved file's name carries the remote
filename's extension when it has one (`.jpg` is preserved) and `.png`
when it has none (`"result"` yields a `.png` file). -/
theorem local_filename_extension_spec (uuid_hex f : String) :
    local_filename uuid_hex f =
      uuid_hex ++ (if path_suffix f = "" then ".png" else path_suffix f) ∧
    path_suffix "result" = "" ∧
    local_filename "0123456789abcdef0123456789abcdef" "result" =
      "0123456789abcdef0123456789abcdef.png" ∧
    path_suffix "photo.jpg" = ".jpg" ∧
    local_filename "0123456789abcdef0123456789abcdef" "photo.jpg" =
      "0123456789abcdef0123456789abcdef.jpg" :=
  ⟨rfl, by decide, by decide, by decide, by decide⟩

/-! ### Claim C9 -/

/-- Claim C9: when the image GET fails, `_download_image` raises at
`raise_for_status()` and performs no filesystem effect — the directory
creation and the file write happen only on the success path, after the
status check. -/
theorem download_image_failure_spec (save_dir uuid_hex f : String) :
    download_image HttpOutcome.failure save_dir uuid_hex f =
      .error .httpError ∧
    (∀ effs p, download_image HttpOutcome.failure save_dir uuid_hex f ≠
      Except.ok (effs, p)) ∧
    download_image HttpOutcome.success save_dir uuid_hex f =
      .ok ([.mkdirParents save_dir,
            .writeFile (download_local_path save_dir uuid_hex f)],
           download_local_path save_dir uuid_hex f) :=
  ⟨rfl, fun _ _ h => by simp [download_image] at h, rfl⟩

/-! ### Claim C10 -/

theorem last_component_no_slash (cs : List Char) :
    ∀ c ∈ last_component cs, c ≠ '/' := by
  intro c hc
  have := List.mem_takeWhile_imp (List.mem_reverse.mp
    (by simpa [last_component] using hc))
  simpa using this

theorem name_suffix_subset (name : List Char) :
    ∀ c ∈ name_suffix name, c ∈ name := by
  intro c hc
  unfold name_suffix at hc
  split at hc
  · split at hc
    · exact List.drop_subset _ _ hc
    · simp at hc
  · simp at hc

theorem path_suffix_no_slash (f : String) :
    ∀ c ∈ (path_suffix f).data, c ≠ '/' := by
  intro c hc
  exact last_component_no_slash f.data c (name_suffix_subset _ c hc)

theorem ext_of_no_slash (f : String) : ∀ c ∈ (ext_of f).data, c ≠ '/' := by
  intro c hc
  unfold ext_of at hc
  by_cases h : path_suffix f = ""
  · simp only [h, if_true] at hc
    simp only [List.mem_cons, List.not_mem_nil, or_false] at hc
    rcases hc with rfl | rfl | rfl | rfl <;> decide
  · exact path_suffix_no_slash f c (by simpa [h] using hc)

theorem takeWhile_eq_self_of_all {p : Char → Bool} :
    ∀ l : List Char, (∀ a ∈ l, p a = true) → l.takeWhile p = l := by
  intro l h
  induction l with
  | nil => rfl
  | cons a t ih =>
      rw [List.takeWhile_cons, h a (by simp)]
      simp [ih fun b hb => h b (by simp [hb])]

theorem last_component_idem (cs : List Char) :
    last_component (last_component cs) = last_component cs := by
  unfold last_component
  rw [List.reverse_reverse]
  rw [takeWhile_eq_self_of_all (cs.reverse.takeWhile fun c => c ≠ '/')
    (fun a ha => List.mem_takeWhile_imp ha)]

/-- `path_suffix` only looks at the final path component: stripping the
directory part of the remote filename does not change the extension. -/
theorem path_suffix_last_component (f : String) :
    path_suffix f = path_suffix ⟨last_component f.data⟩ := by
  show path_suffix f = path_suffix (String.mk (last_component f.data))
  unfold path_suffix
  rw [show (String.mk (last_component f.data)).data = last_component f.data
    from rfl]
  rw [last_component_idem]

/-- Claim C10: the local path is always `save_dir / (token ++ ext)` — a
direct child of the caller's output directory — where the token is the
32-character hex form of the fresh UUID and `ext` is derived from the
remote filename's final component only, so no directory component of the
remote filename reaches the local path.  The basename is slash-free and
nonempty. -/
theorem download_local_path_shape (save_dir uuid_hex f : String)
    (h1 : uuid_hex.length = 32)
    (h2 : ∀ c ∈ uuid_hex.data, c.isDigit = true ∨ ('a' ≤ c ∧ c ≤ 'f')) :
    download_local_path save_dir uuid_hex f =
      save_dir ++ "/" ++ (uuid_hex ++ ext_of f) ∧
    (uuid_hex ++ ext_of f).data.take 32 = uuid_hex.data ∧
    (uuid_hex ++ ext_of f).data.drop 32 = (ext_of f).data ∧
    (∀ c ∈ (uuid_hex ++ ext_of f).data, c ≠ '/') ∧
    uuid_hex ++ ext_of f ≠ "" ∧
    path_suffix f = path_suffix ⟨last_component f.data⟩ := by
  have hdata : (uuid_hex ++ ext_of f).data = uuid_hex.data ++ (ext_of f).data :=
    String.data_append uuid_hex (ext_of f)
  have hlen : uuid_hex.data.length = 32 := h1
  have htake : (uuid_hex ++ ext_of f).data.take 32 = uuid_hex.data := by
    rw [hdata, ← hlen, List.take_left]
  refine ⟨rfl, htake, ?_, ?_, ?_, path_suffix_last_component f⟩
  · rw [hdata, ← hlen, List.drop_left]
  · intro c hc
    rw [hdata] at hc
    rcases List.mem_append.mp hc with h | h
    · rcases h2 c h with hd | ⟨hlo, hhi⟩
      · intro he
        subst he
        simp [Char.isDigit] at hd
      · intro he
        subst he
        exact absurd hlo (by decide)
    · exact ext_of_no_slash f c h
  · intro he
    have hnil : (uuid_hex ++ ext_of f).data = [] := by rw [he]
    rw [hnil] at htake
    have hud : uuid_hex.data = [] := by simpa using htake.symm
    rw [hud] at hlen
    simp at hlen

/-- Witness for C10 at a remote filename with a directory part. -/
theorem download_local_path_shape_witness :
    download_local_path "out" "0123456789abcdef0123456789abcdef" "evil/pic.jpg" =
      "out" ++ "/" ++ ("0123456789abcdef0123456789abcdef" ++ ext_of "evil/pic.jpg") ∧
    ("0123456789abcdef0123456789abcdef" ++ ext_of "evil/pic.jpg").data.take 32 =
      ("0123456789abcdef0123456789abcdef" : String).data ∧
    ("0123456789abcdef0123456789abcdef" ++ ext_of "evil/pic.jpg").data.drop 32 =
      (ext_of "evil/pic.jpg").data ∧
    (∀ c ∈ ("0123456789abcdef0123456789abcdef" ++ ext_of "evil/pic.jpg").data,
      c ≠ '/') ∧
    "0123456789abcdef0123456789abcdef" ++ ext_of "evil/pic.jpg" ≠ "" ∧
    path_suffix "evil/pic.jpg" =
      path_suffix ⟨last_component ("evil/pic.jpg" : String).data⟩ :=
  download_local_path_shape "out" "0123456789abcdef0123456789abcdef"
    "evil/pic.jpg" (by decide) (by decide)

/-! ### Claim C3 -/

/-- Counterexample to C3 as stated: the workflow `{"6": {}}` contains
key `"6"`, yet the mutation step raises `KeyError "inputs"` (from
`nodo_6["inputs"]["text"] = ...`) instead of producing a workflow whose
node-6 `inputs.text` equals the prompt — the claim's universal statement
over all JSON objects containing key `"6"` fails. -/
theorem set_prompt_text_counterexample :
    alookup [("6", JVal.obj [])] "6" = some (JVal.obj []) ∧
    set_prompt_text (JVal.obj [("6", JVal.obj [])]) "hi" =
      .error (.keyError "inputs") ∧
    ∀ wf, set_prompt_text (JVal.obj [("6", JVal.obj [])]) "hi" ≠
      Except.ok wf :=
  ⟨rfl, rfl, fun _ h => by simp [set_prompt_text, alookup] at h⟩

/-- Claim C3 (amended): for every workflow JSON object whose entry at
key `"6"` is a mapping that itself contains an `"inputs"` mapping, and
every prompt string (empty, quoted or unicode alike), the mutation step
succeeds and the value at `workflow["6"]["inputs"]["text"]` is exactly
the supplied prompt string, created or overwritten unconditionally. -/
theorem set_prompt_text_spec (wf n6 ins : List (String × JVal)) (p : String)
    (h6 : alookup wf "6" = some (JVal.obj n6))
    (hin : alookup n6 "inputs" = some (JVal.obj ins)) :
    ∃ wf' n6' ins',
      set_prompt_text (JVal.obj wf) p = .ok (JVal.obj wf') ∧
      alookup wf' "6" = some (JVal.obj n6') ∧
      alookup n6' "inputs" = some (JVal.obj ins') ∧
      alookup ins' "text" = some (JVal.str p) := by
  refine ⟨aset wf "6" (JVal.obj (aset n6 "inputs"
      (JVal.obj (aset ins "text" (JVal.str p))))),
    aset n6 "inputs" (JVal.obj (aset ins "text" (JVal.str p))),
    aset ins "text" (JVal.str p), ?_, ?_, ?_, ?_⟩
  · simp [set_prompt_text, h6, hin]
  · exact alookup_aset_self ..
  · exact alookup_aset_self ..
  · exact alookup_aset_self ..

/-- Witness for the amended C3: a concrete workflow and a prompt with
quotes and unicode. -/
theorem set_prompt_text_spec_witness :
    ∃ wf' n6' ins',
      set_prompt_text
        (JVal.obj [("6", JVal.obj [("inputs",
          JVal.obj [("text", JVal.str "old")])])]) "héllo \"q\"" =
        .ok (JVal.obj wf') ∧
      alookup wf' "6" = some (JVal.obj n6') ∧
      alookup n6' "inputs" = some (JVal.obj ins') ∧
      alookup ins' "text" = some (JVal.str "héllo \"q\"") :=
  set_prompt_text_spec [("6", JVal.obj [("inputs",
    JVal.obj [("text", JVal.str "old")])])]
    [("inputs", JVal.obj [("text", JVal.str "old")])]
    [("text", JVal.str "old")] "héllo \"q\"" rfl rfl

/-! ### Claim C6 -/

/-- Claim C6: `generar` fails with `json.JSONDecodeError` when the
workflow file's content is not valid JSON, and with `KeyError "6"` when
the parsed workflow object lacks key `"6"`; in both cases the error is
returned by the pre-network phase, so the POST body is never built and
no network call is made. -/
theorem generar_pre_spec (p : String) (wf : List (String × JVal)) :
    generar_pre none p = .error .jsonDecodeError ∧
    (alookup wf "6" = none →
      generar_pre (some (JVal.obj wf)) p = .error (.keyError "6")) := by
  refine ⟨rfl, fun h => ?_⟩
  simp [generar_pre, set_prompt_text, h]

/-- Witness for C6: the empty file content (not JSON) and the empty
workflow object (no node `"6"`). -/
theorem generar_pre_spec_witness :
    generar_pre none "x" = .error .jsonDecodeError ∧
    generar_pre (some (JVal.obj [])) "x" = .error (.keyError "6") :=
  ⟨(generar_pre_spec "x" []).1, (generar_pre_spec "x" []).2 rfl⟩

/-! ### Claim C5 -/

/-- Claim C5: `_pick_last_image` raises a `ValueError` (the spec's
ValidationError) in each of the three cases — missing `outputs` key,
empty `outputs` mapping, and empty `images` list on the selected node —
and in each case it is a `ValueError`, not an unrelated error kind. -/
theorem pick_last_image_validation_errors
    (histA histB histC outputs node : List (String × JVal)) (k : String)
    (hA : alookup histA "outputs" = none)
    (hB : alookup histB "outputs" = some (JVal.obj []))
    (hC1 : alookup histC "outputs" = some (JVal.obj outputs))
    (hC2 : last_node_key outputs = .ok k)
    (hC3 : alookup outputs k = some (JVal.obj node))
    (hC4 : alookup node "images" = some (JVal.arr [])) :
    pick_last_image histA = .error (.valueError "No se encontraron outputs") ∧
    pick_last_image histB =
      .error (.valueError "No se encontraron imágenes en los outputs") ∧
    pick_last_image histC =
      .error (.valueError "El nodo final no contiene imágenes") := by
  refine ⟨?_, ?_, ?_⟩
  · simp [pick_last_image, hA]
  · simp [pick_last_image, hB, JVal.truthy]
  · have hne : outputs ≠ [] := by
      intro h
      subst h
      simp [alookup] at hC3
    simp [pick_last_image, hC1, JVal.truthy, hne, hC2, hC3, getItem, hC4,
      bind, Except.bind]

/-- Witness for C5: three concrete history records, one per error
case. -/
theorem pick_last_image_validation_errors_witness :
    pick_last_image [] = .error (.valueError "No se encontraron outputs") ∧
    pick_last_image [("outputs", JVal.obj [])] =
      .error (.valueError "No se encontraron imágenes en los outputs") ∧
    pick_last_image
      [("outputs", JVal.obj [("3", JVal.obj [("images", JVal.arr [])])])] =
      .error (.valueError "El nodo final no contiene imágenes") :=
  pick_last_image_validation_errors []
    [("outputs", JVal.obj [])]
    [("outputs", JVal.obj [("3", JVal.obj [("images", JVal.arr [])])])]
    [("3", JVal.obj [("images", JVal.arr [])])]
    [("images", JVal.arr [])] "3" rfl rfl rfl rfl rfl rfl

/-! ### Claim C8 -/

/-- Claim C8: on a selected node with a non-empty `images` list,
`_pick_last_image` returns the `filename` and `subfolder` of the last
entry of the list, the subfolder defaulting to `""` when the entry has
no `subfolder` field; with two images it picks the second, not the
first. -/
theorem pick_last_image_last_entry
    (hist outputs node li : List (String × JVal)) (images : List JVal)
    (k : String) (fn : JVal)
    (hH : alookup hist "outputs" = some (JVal.obj outputs))
    (hK : last_node_key outputs = .ok k)
    (hN : alookup outputs k = some (JVal.obj node))
    (hI : alookup node "images" = some (JVal.arr images))
    (hL : images.getLast? = some (JVal.obj li))
    (hF : alookup li "filename" = some fn) :
    (alookup li "subfolder" = none →
      pick_last_image hist = .ok (fn, JVal.str "")) ∧
    (∀ sf, alookup li "subfolder" = some sf →
      pick_last_image hist = .ok (fn, sf)) ∧
    pick_last_image
      [("outputs", JVal.obj [("1", JVal.obj [("images", JVal.arr
        [JVal.obj [("filename", JVal.str "first.png")],
         JVal.obj [("filename", JVal.str "last.png")]])])])] =
      .ok (JVal.str "last.png", JVal.str "") := by
  have hne : outputs ≠ [] := by
    intro h
    subst h
    simp [alookup] at hN
  have himne : images ≠ [] := by
    intro h
    subst h
    simp at hL
  have hred : ∀ sfv, dictGetD (JVal.obj li) "subfolder" (JVal.str "") =
      .ok sfv → pick_last_image hist = .ok (fn, sfv) := by
    intro sfv hsf
    simp [pick_last_image, hH, JVal.truthy, hne, hK, hN, getItem, hI,
      himne, hL, hF, hsf, bind, Except.bind, Functor.map, Except.map,
      pure, Except.pure]
  refine ⟨?_, ?_, ?_⟩
  · intro hnone
    exact hred (JVal.str "") (by simp [dictGetD, hnone])
  · intro sf hsome
    exact hred sf (by simp [dictGetD, hsome])
  · rfl

/-- Witness for C8: a node whose last image has an explicit subfolder,
and one whose last image has none. -/
theorem pick_last_image_last_entry_witness :
    pick_last_image
      [("outputs", JVal.obj [("1", JVal.obj [("images", JVal.arr
        [JVal.obj [("filename", JVal.str "a.png")],
         JVal.obj [("filename", JVal.str "b.png"),
                   ("subfolder", JVal.str "sub")]])])])] =
      .ok (JVal.str "b.png", JVal.str "sub") :=
  (pick_last_image_last_entry
    [("outputs", JVal.obj [("1", JVal.obj [("images", JVal.arr
      [JVal.obj [("filename", JVal.str "a.png")],
       JVal.obj [("filename", JVal.str "b.png"),
                 ("subfolder", JVal.str "sub")]])])])]
    [("1", JVal.obj [("images", JVal.arr
      [JVal.obj [("filename", JVal.str "a.png")],
       JVal.obj [("filename", JVal.str "b.png"),
                 ("subfolder", JVal.str "sub")]])])]
    [("images", JVal.arr
      [JVal.obj [("filename", JVal.str "a.png")],
       JVal.obj [("filename", JVal.str "b.png"),
                 ("subfolder", JVal.str "sub")]])]
    [("filename", JVal.str "b.png"), ("subfolder", JVal.str "sub")]
    [JVal.obj [("filename", JVal.str "a.png")],
     JVal.obj [("filename", JVal.str "b.png"),
               ("subfolder", JVal.str "sub")]]
    "1" (JVal.str "b.png") rfl rfl rfl rfl rfl rfl).2.1
    (JVal.str "sub") rfl

/-! ### Claim C1 -/

/-- The integer value of a key that `int()` accepts (0 on a key it
rejects; used only under the hypothesis that parsing succeeds). -/
def int_val (s : String) : Int :=
  match py_int s with
  | .ok n => n
  | .error _ => 0

instance : IsTotal (String × Int) (fun a b => a.2 ≤ b.2) :=
  ⟨fun a b => le_total a.2 b.2⟩

instance : IsTrans (String × Int) (fun a b => a.2 ≤ b.2) :=
  ⟨fun _ _ _ h h' => le_trans h h'⟩

theorem mapM_py_int_ok (keys : List String)
    (hp : ∀ k ∈ keys, py_int k = .ok (int_val k)) :
    keys.mapM (fun k => do
      let n ← py_int k
      pure (k, n)) = Except.ok (keys.map (fun k => (k, int_val k))) := by
  induction keys with
  | nil => rfl
  | cons a t ih =>
      rw [List.mapM_cons, hp a (by simp), ih (fun k hk => hp k (by simp [hk]))]
      simp [bind, Except.bind, pure, Except.pure]

theorem sorted_snd_le_getLast :
    ∀ (l : List (String × Int)),
      List.Sorted (fun a b : String × Int => a.2 ≤ b.2) l →
      ∀ (hne : l ≠ []) (x : String × Int), x ∈ l → x.2 ≤ (l.getLast hne).2 := by
  intro l
  induction l with
  | nil => intro _ hne; exact absurd rfl hne
  | cons a t ih =>
      intro hs hne x hx
      cases t with
      | nil =>
          have : x = a := by simpa using hx
          subst this
          exact le_refl _
      | cons b t' =>
          rw [List.getLast_cons (by simp)]
          rcases List.mem_cons.mp hx with rfl | hx'
          · exact (List.sorted_cons.mp hs).1 _ (List.getLast_mem _)
          · exact ih (List.sorted_cons.mp hs).2 (by simp) x hx'

/-- Claim C1: for a non-empty outputs mapping whose keys `int()`
accepts, with numerically distinct values, `_pick_last_image`'s node
selection `sorted(outputs.keys(), key=int)[-1]` returns the key with the
numerically largest integer value; in particular on keys
`{"2", "10", "9"}` it selects `"10"`, not the lexicographically largest
`"9"`. -/
theorem last_node_key_numeric_max (outputs : List (String × JVal))
    (hne : outputs ≠ [])
    (hp : ∀ k ∈ outputs.map (fun p => p.1), py_int k = .ok (int_val k))
    (hd : (outputs.map (fun p => p.1)).Pairwise
      (fun a b => int_val a ≠ int_val b)) :
    (∃ k, last_node_key outputs = .ok k ∧
      k ∈ outputs.map (fun p => p.1) ∧
      ∀ k' ∈ outputs.map (fun p => p.1), k' ≠ k →
        int_val k' < int_val k) ∧
    last_node_key [("2", JVal.obj []), ("10", JVal.obj []),
      ("9", JVal.obj [])] = .ok "10" := by
  refine ⟨?_, by rfl⟩
  have hpairsne : (outputs.map (fun p => p.1)).map
      (fun k => (k, int_val k)) ≠ [] := by
    simpa using hne
  have hperm : List.Perm
      (((outputs.map (fun p => p.1)).map
        (fun k => (k, int_val k))).insertionSort (fun a b => a.2 ≤ b.2))
      ((outputs.map (fun p => p.1)).map (fun k => (k, int_val k))) :=
    List.perm_insertionSort _ _
  have hsortedne : ((outputs.map (fun p => p.1)).map
      (fun k => (k, int_val k))).insertionSort (fun a b => a.2 ≤ b.2) ≠ [] := by
    intro h
    exact hpairsne (h ▸ hperm).symm.eq_nil
  have hsort := List.sorted_insertionSort (fun a b : String × Int => a.2 ≤ b.2)
    ((outputs.map (fun p => p.1)).map (fun k => (k, int_val k)))
  have hlastmem : (((outputs.map (fun p => p.1)).map
        (fun k => (k, int_val k))).insertionSort
        (fun a b => a.2 ≤ b.2)).getLast hsortedne ∈
      (outputs.map (fun p => p.1)).map (fun k => (k, int_val k)) :=
    hperm.mem_iff.mp (List.getLast_mem hsortedne)
  obtain ⟨k0, hk0, heq⟩ := List.mem_map.mp hlastmem
  have hsbi : sorted_by_int (outputs.map (fun p => p.1)) =
      Except.ok ((((outputs.map (fun p => p.1)).map
        (fun k => (k, int_val k))).insertionSort
        (fun a b => a.2 ≤ b.2)).map (fun p => p.1)) := by
    unfold sorted_by_int
    rw [mapM_py_int_ok _ hp]
    simp [bind, Except.bind, pure, Except.pure]
  have hlk : last_node_key outputs = .ok k0 := by
    unfold last_node_key
    rw [hsbi]
    have hgl : ((((outputs.map (fun p => p.1)).map
        (fun k => (k, int_val k))).insertionSort
        (fun a b => a.2 ≤ b.2)).map (fun p => p.1)).getLast? = some k0 := by
      rw [List.getLast?_map, List.getLast?_eq_getLast_of_ne_nil hsortedne]
      rw [← heq]
      rfl
    simp only [bind, Except.bind]
    rw [hgl]
  refine ⟨k0, hlk, hk0, ?_⟩
  intro k' hk' hkne
  have hk'sorted : (k', int_val k') ∈
      ((outputs.map (fun p => p.1)).map
        (fun k => (k, int_val k))).insertionSort (fun a b => a.2 ≤ b.2) :=
    hperm.mem_iff.mpr (List.mem_map_of_mem _ hk')
  have hle := sorted_snd_le_getLast _ hsort hsortedne _ hk'sorted
  rw [← heq] at hle
  have hsymm : Symmetric (fun a b : String => int_val a ≠ int_val b) := by
    intro a b h e
    exact h e.symm
  have hne2 : int_val k' ≠ int_val k0 := hd.forall hsymm hk' hk0 hkne
  exact lt_of_le_of_ne hle hne2

/-- Witness for C1 at the distinguishing key set `{"2", "10", "9"}`. -/
theorem last_node_key_numeric_max_witness :
    (∃ k, last_node_key [("2", JVal.obj []), ("10", JVal.obj []),
        ("9", JVal.obj [])] = .ok k ∧
      k ∈ ([("2", JVal.obj []), ("10", JVal.obj []),
        ("9", JVal.obj [])].map (fun p => p.1)) ∧
      ∀ k' ∈ ([("2", JVal.obj []), ("10", JVal.obj []),
        ("9", JVal.obj [])].map (fun p => p.1)), k' ≠ k →
        int_val k' < int_val k) ∧
    last_node_key [("2", JVal.obj []), ("10", JVal.obj []),
      ("9", JVal.obj [])] = .ok "10" :=
  last_node_key_numeric_max
    [("2", JVal.obj []), ("10", JVal.obj []), ("9", JVal.obj [])]
    (by simp)
    (by intro k hk; fin_cases hk <;> rfl)
    (by simp [int_val, py_int, nat_of_digits, nat_of_digits_aux])

/-! ### Claim C2 -/

theorem wait_go_completed (pid : String) (hists : Nat → JVal)
    (poll timeout : Nat) :
    ∀ (fuel n : Nat) (d : JVal),
      wait_go pid hists poll timeout fuel n = .completed d →
      ∃ j, n ≤ j ∧ poll_check (hists j) pid = .ok (.ready d) ∧
        ∀ m, n ≤ m → m < j →
          poll_check (hists m) pid = .ok .notReady ∧ m * poll ≤ timeout := by
  intro fuel
  induction fuel with
  | zero =>
      intro n d h
      simp [wait_go] at h
  | succ f ih =>
      intro n d h
      simp only [wait_go] at h
      cases hc : poll_check (hists n) pid with
      | error e =>
          rw [hc] at h
          simp at h
      | ok s =>
          cases s with
          | ready d' =>
              rw [hc] at h
              simp at h
              subst h
              exact ⟨n, le_refl n, hc, fun m hm1 hm2 =>
                absurd (lt_of_le_of_lt hm1 hm2) (lt_irrefl n)⟩
          | notReady =>
              rw [hc] at h
              by_cases ht : timeout < n * poll
              · simp [ht] at h
              · simp [ht] at h
                obtain ⟨j, hj1, hj2, hj3⟩ := ih (n + 1) d h
                refine ⟨j, le_trans (Nat.le_succ n) hj1, hj2, ?_⟩
                intro m hm1 hm2
                rcases Nat.eq_or_lt_of_le hm1 with rfl | hlt
                · exact ⟨hc, Nat.le_of_not_lt ht⟩
                · exact hj3 m hlt hm2

theorem wait_go_timedOut (pid : String) (hists : Nat → JVal)
    (poll timeout : Nat) :
    ∀ (fuel n : Nat),
      wait_go pid hists poll timeout fuel n = .timedOut →
      ∃ j, n ≤ j ∧ timeout < j * poll ∧
        (∀ m, n ≤ m → m ≤ j → poll_check (hists m) pid = .ok .notReady) ∧
        (∀ m, n ≤ m → m < j → m * poll ≤ timeout) := by
  intro fuel
  induction fuel with
  | zero =>
      intro n h
      simp [wait_go] at h
  | succ f ih =>
      intro n h
      simp only [wait_go] at h
      cases hc : poll_check (hists n) pid with
      | error e =>
          rw [hc] at h
          simp at h
      | ok s =>
          cases s with
          | ready d' =>
              rw [hc] at h
              simp at h
          | notReady =>
              rw [hc] at h
              by_cases ht : timeout < n * poll
              · refine ⟨n, le_refl n, ht, ?_, ?_⟩
                · intro m hm1 hm2
                  have : m = n := le_antisymm hm2 hm1
                  subst this
                  exact hc
                · intro m hm1 hm2
                  exact absurd (lt_of_le_of_lt hm1 hm2) (lt_irrefl n)
              · simp [ht] at h
                obtain ⟨j, hj1, hj2, hj3, hj4⟩ := ih (n + 1) h
                refine ⟨j, le_trans (Nat.le_succ n) hj1, hj2, ?_, ?_⟩
                · intro m hm1 hm2
                  rcases Nat.eq_or_lt_of_le hm1 with rfl | hlt
                  · exact hc
                  · exact hj3 m hlt hm2
                · intro m hm1 hm2
                  rcases Nat.eq_or_lt_of_le hm1 with rfl | hlt
                  · exact Nat.le_of_not_lt ht
                  · exact hj4 m hlt hm2

theorem wait_go_not_out_of_fuel (pid : String) (hists : Nat → JVal)
    (poll timeout : Nat) (hpoll : 1 ≤ poll) :
    ∀ fuel n, 1 ≤ fuel → timeout + 2 * poll ≤ (fuel + n) * poll →
      wait_go pid hists poll timeout fuel n ≠ .outOfFuel := by
  intro fuel
  induction fuel with
  | zero =>
      intro n h1 _
      exact absurd h1 (by simp)
  | succ f ih =>
      intro n _ h2
      simp only [wait_go]
      cases hc : poll_check (hists n) pid with
      | error e => simp
      | ok s =>
          cases s with
          | ready d => simp
          | notReady =>
              by_cases ht : timeout < n * poll
              · simp [ht]
              · simp only [ht, if_false]
                have hf : 1 ≤ f := by
                  by_contra hf0
                  have hf0' : f = 0 := by omega
                  subst hf0'
                  have : timeout + 2 * poll ≤ (1 + n) * poll := h2
                  have hx : (1 + n) * poll = n * poll + poll := by ring
                  have : timeout + poll < n * poll + poll + 1 := by omega
                  exact ht (by omega)
                refine ih (n + 1) hf ?_
                have : (f + 1 + n) * poll = (f + (n + 1)) * poll := by ring_nf
                omega

theorem wait_go_all_not_ready (pid : String) (hists : Nat → JVal)
    (poll timeout : Nat) (hpoll : 1 ≤ poll)
    (hall : ∀ j, poll_check (hists j) pid = .ok .notReady) :
    ∀ fuel n, 1 ≤ fuel → timeout + 2 * poll ≤ (fuel + n) * poll →
      wait_go pid hists poll timeout fuel n = .timedOut := by
  intro fuel
  induction fuel with
  | zero =>
      intro n h1 _
      exact absurd h1 (by simp)
  | succ f ih =>
      intro n _ h2
      simp only [wait_go, hall n]
      by_cases ht : timeout < n * poll
      · simp [ht]
      · simp only [ht, if_false]
        have hf : 1 ≤ f := by
          by_contra hf0
          have hf0' : f = 0 := by omega
          subst hf0'
          have : timeout + 2 * poll ≤ (1 + n) * poll := h2
          have hx : (1 + n) * poll = n * poll + poll := by ring
          exact ht (by omega)
        refine ih (n + 1) hf ?_
        have : (f + 1 + n) * poll = (f + (n + 1)) * poll := by ring_nf
        omega

theorem fuel_budget_le (poll timeout : Nat) (hpoll : 1 ≤ poll) :
    timeout + 2 * poll ≤ (timeout + 2 + 0) * poll := by
  have h1 : timeout * 1 ≤ timeout * poll := Nat.mul_le_mul_left timeout hpoll
  have h2 : (timeout + 2 + 0) * poll = timeout * poll + 2 * poll := by ring
  omega

/-- Claim C2: for every sequence of history responses, `_wait_until_done`
(with `poll ≥ 1` in the discrete-time model) never exhausts its modelled
iteration budget; it returns a record `d` only at a poll whose response
is ready — the response contains the job id mapped to `d` and `d`'s
nested `status.completed` is truthy — after earlier polls that were all
not ready and within the timeout; a ready first response returns
immediately; it times out only at a poll `n` where the response is still
not ready and the elapsed time `n * poll` first exceeds `timeout` (all
earlier polls were within it — never earlier); and when no response is
ever ready it always times out rather than silently succeeding. -/
theorem wait_until_done_spec (prompt_id : String) (hists : Nat → JVal)
    (poll timeout : Nat) (hpoll : 1 ≤ poll) :
    (wait_until_done prompt_id hists poll timeout ≠ .outOfFuel) ∧
    (∀ d, wait_until_done prompt_id hists poll timeout = .completed d →
      ∃ n, poll_check (hists n) prompt_id = .ok (.ready d) ∧
        ∀ m, m < n →
          poll_check (hists m) prompt_id = .ok .notReady ∧
          m * poll ≤ timeout) ∧
    (wait_until_done prompt_id hists poll timeout = .timedOut →
      ∃ n, timeout < n * poll ∧
        (∀ m, m ≤ n → poll_check (hists m) prompt_id = .ok .notReady) ∧
        (∀ m, m < n → m * poll ≤ timeout)) ∧
    ((∀ n, poll_check (hists n) prompt_id = .ok .notReady) →
      wait_until_done prompt_id hists poll timeout = .timedOut) ∧
    (∀ d, poll_check (hists 0) prompt_id = .ok (.ready d) →
      wait_until_done prompt_id hists poll timeout = .completed d) ∧
    (∀ v d, poll_check v prompt_id = .ok (.ready d) →
      (∃ fields, v = JVal.obj fields ∧ alookup fields prompt_id = some d) ∧
      (∃ st c, dictGetD d "status" (JVal.obj []) = .ok st ∧
        dictGetD st "completed" (JVal.bool false) = .ok c ∧
        c.truthy = true)) := by
  refine ⟨?_, ?_, ?_, ?_, ?_, ?_⟩
  · exact wait_go_not_out_of_fuel prompt_id hists poll timeout hpoll
      (timeout + 2) 0 (by omega) (fuel_budget_le poll timeout hpoll)
  · intro d h
    obtain ⟨j, _, hj2, hj3⟩ :=
      wait_go_completed prompt_id hists poll timeout (timeout + 2) 0 d h
    exact ⟨j, hj2, fun m hm => hj3 m (Nat.zero_le m) hm⟩
  · intro h
    obtain ⟨j, _, hj2, hj3, hj4⟩ :=
      wait_go_timedOut prompt_id hists poll timeout (timeout + 2) 0 h
    exact ⟨j, hj2, fun m hm => hj3 m (Nat.zero_le m) hm,
      fun m hm => hj4 m (Nat.zero_le m) hm⟩
  · intro hall
    exact wait_go_all_not_ready prompt_id hists poll timeout hpoll hall
      (timeout + 2) 0 (by omega) (fuel_budget_le poll timeout hpoll)
  · intro d h0
    show wait_go prompt_id hists poll timeout (timeout + 2) 0 = .completed d
    have : timeout + 2 = (timeout + 1) + 1 := rfl
    rw [this]
    simp only [wait_go, h0]
  · intro v d h
    unfold poll_check at h
    by_cases htr : v.truthy = false
    · rw [if_pos htr] at h
      simp at h
    · rw [if_neg htr] at h
      cases v with
      | obj fields =>
          cases hl : alookup fields prompt_id with
          | none =>
              simp only [hl] at h
              simp at h
          | some data =>
              simp only [hl] at h
              cases hst : dictGetD data "status" (JVal.obj []) with
              | error e =>
                  rw [hst] at h
                  simp [bind, Except.bind] at h
              | ok st =>
                  rw [hst] at h
                  simp only [bind, Except.bind] at h
                  cases hcm : dictGetD st "completed" (JVal.bool false) with
                  | error e =>
                      simp only [hcm] at h
                      simp at h
                  | ok c =>
                      simp only [hcm] at h
                      by_cases hct : c.truthy = false
                      · rw [if_pos hct] at h
                        simp [pure, Except.pure] at h
                      · rw [if_neg hct] at h
                        simp [pure, Except.pure] at h
                        subst h
                        exact ⟨⟨fields, rfl, hl⟩, st, c, hst, hcm,
                          eq_true_of_ne_false hct⟩
      | null => simp at h
      | bool b => simp at h
      | num n => simp at h
      | str s => simp at h
      | arr es => simp at h

/-- Witness for C2: polling a server whose history responses are always
the empty object, with `poll = 1` and `timeout = 3`, times out and never
silently succeeds. -/
theorem wait_until_done_spec_witness :
    (wait_until_done "p" (fun _ : Nat => JVal.obj []) 1 3 ≠ .outOfFuel) ∧
    (∀ d, wait_until_done "p" (fun _ : Nat => JVal.obj []) 1 3 =
        .completed d →
      ∃ n : Nat, poll_check (JVal.obj []) "p" = .ok (.ready d) ∧
        ∀ m, m < n →
          poll_check (JVal.obj []) "p" = .ok .notReady ∧ m * 1 ≤ 3) ∧
    (wait_until_done "p" (fun _ : Nat => JVal.obj []) 1 3 = .timedOut →
      ∃ n : Nat, 3 < n * 1 ∧
        (∀ m, m ≤ n → poll_check (JVal.obj []) "p" = .ok .notReady) ∧
        (∀ m, m < n → m * 1 ≤ 3)) ∧
    ((∀ n : Nat, poll_check (JVal.obj []) "p" = .ok .notReady) →
      wait_until_done "p" (fun _ : Nat => JVal.obj []) 1 3 = .timedOut) ∧
    (∀ d, poll_check (JVal.obj []) "p" = .ok (.ready d) →
      wait_until_done "p" (fun _ : Nat => JVal.obj []) 1 3 = .completed d) ∧
    (∀ v d, poll_check v "p" = .ok (.ready d) →
      (∃ fields, v = JVal.obj fields ∧ alookup fields "p" = some d) ∧
      (∃ st c, dictGetD d "status" (JVal.obj []) = .ok st ∧
        dictGetD st "completed" (JVal.bool false) = .ok c ∧
        c.truthy = true)) :=
  wait_until_done_spec "p" (fun _ : Nat => JVal.obj []) 1 3 (by omega)

end Comfy
